import Mathlib

/-!
Verification of the lucidity-mcp repository acquisition/cache subsystem and
diff-parsing engine.

Python strings are modelled as `List Char` (`PyStr`); Python helper functions
(`str.split`, `str.strip`, `str.find`, `str.rsplit`, ...) are embedded as
executable Lean functions with the same semantics.  Filesystem and subprocess
state are passed explicitly (existence predicates, command oracles, entry
lists), and fallible operations return `Except`/`Option`.
-/

set_option maxRecDepth 10000

abbrev PyStr := List Char

/-- Python `s.startswith(p)`. -/
def pyStartsWith : PyStr → PyStr → Bool
  | [], _ => true
  | _ :: _, [] => false
  | p :: ps, c :: cs => p = c && pyStartsWith ps cs

/-- Python `s.endswith(p)`. -/
def pyEndsWith (p s : PyStr) : Bool :=
  pyStartsWith p.reverse s.reverse

/-- Python `s.split(sep)` for a single-character separator. -/
def pySplit (sep : Char) : PyStr → List PyStr
  | [] => [[]]
  | c :: cs =>
    if c = sep then [] :: pySplit sep cs
    else
      match pySplit sep cs with
      | [] => [[c]]
      | p :: ps => (c :: p) :: ps

/-- Python `sep.join(parts)` for a single-character separator. -/
def pyJoin (sep : Char) (parts : List PyStr) : PyStr :=
  List.intercalate [sep] parts

/-- Whitespace as recognised by Python `str.strip()` (ASCII portion). -/
def isPySpace (c : Char) : Bool :=
  c = ' ' || c = '\t' || c = '\n' || c = '\r'

/-- Python `s.strip()`. -/
def pyStrip (s : PyStr) : PyStr :=
  ((s.dropWhile isPySpace).reverse.dropWhile isPySpace).reverse

/-- Python `s.rstrip(c)` for a single character. -/
def pyRStrip (c : Char) (s : PyStr) : PyStr :=
  (s.reverse.dropWhile (· = c)).reverse

/-- Python `s.find(c, start)`: index of the first occurrence of `c` at
position `≥ start`, `none` when absent (Python returns `-1`). -/
def pyFindFrom (c : Char) : PyStr → Nat → Option Nat
  | [], _ => none
  | x :: xs, 0 => if x = c then some 0 else (pyFindFrom c xs 0).map (· + 1)
  | _ :: xs, n + 1 => (pyFindFrom c xs n).map (· + 1)

/-- Python `s.rsplit(c, 1)`: split at the last occurrence of `c`;
`none` when `c` does not occur (Python would return a one-element list). -/
def pyRSplitLast (c : Char) : PyStr → Option (PyStr × PyStr)
  | [] => none
  | x :: xs =>
    match pyRSplitLast c xs with
    | some (a, b) => some (x :: a, b)
    | none => if x = c then some ([], xs) else none

/-- Whether `".."` occurs as a substring. -/
def containsDoubleDot : PyStr → Bool
  | '.' :: '.' :: _ => true
  | _ :: rest => containsDoubleDot rest
  | [] => false

/-- The shell metacharacters checked throughout `validation.py`. -/
def shellMetachars : List Char := [';', '&', '|', '$', '`', '\n', '\r']

/-- `any(char in s for char in [";", "&", "|", "$", "`", "\n", "\r"])`. -/
def hasShellMetachar (s : PyStr) : Bool :=
  shellMetachars.any (fun c => s.contains c)

/-- A character of the `SAFE_BRANCH_PATTERN` class `[a-zA-Z0-9/_.-]`. -/
def isSafeBranchChar (c : Char) : Bool :=
  c.isAlpha || c.isDigit || c = '/' || c = '_' || c = '.' || c = '-'

/-- Python `re.match(r"^[a-zA-Z0-9/_.-]+$", s)` viewed as a Boolean.
Note Python's `$` also matches just before a single newline at the very end
of the string, so `"main\n"` matches this pattern. -/
def safeBranchPatternMatch (s : PyStr) : Bool :=
  if s.getLast? = some '\n' then
    !s.dropLast.isEmpty && s.dropLast.all isSafeBranchChar
  else
    !s.isEmpty && s.all isSafeBranchChar

/-- `validation.is_valid_branch_name`. -/
def is_valid_branch_name (branch : PyStr) : Bool :=
  if branch.isEmpty then false
  else if containsDoubleDot branch || pyStartsWith ['.'] branch || pyStartsWith ['-'] branch then
    false
  else safeBranchPatternMatch branch

/-- A character of the `COMMIT_RANGE_PATTERN` ref class `[a-zA-Z0-9~^./_-]`. -/
def isCommitRefChar (c : Char) : Bool :=
  c.isAlpha || c.isDigit || c = '~' || c = '^' || c = '.' || c = '/' || c = '_' || c = '-'

/-- Full-anchored match of `[class]+\.\.[class]+` against `t`
(brute-force over the split position, as a backtracking regex engine would). -/
def commitRangeCoreMatch (t : PyStr) : Bool :=
  (List.range (t.length + 1)).any fun i =>
    let x := t.take i
    let rest := t.drop i
    !x.isEmpty && x.all isCommitRefChar &&
      pyStartsWith ['.', '.'] rest &&
      !(rest.drop 2).isEmpty && (rest.drop 2).all isCommitRefChar

/-- Python `re.match(COMMIT_RANGE_PATTERN, s)` as a Boolean, with the same
trailing-newline behaviour of `$` as `safeBranchPatternMatch`. -/
def commitRangePatternMatch (s : PyStr) : Bool :=
  if s.getLast? = some '\n' then commitRangeCoreMatch s.dropLast || commitRangeCoreMatch s
  else commitRangeCoreMatch s

/-- `validation.is_valid_commit_range`. -/
def is_valid_commit_range (commits : PyStr) : Bool :=
  if commits.isEmpty then false
  else if hasShellMetachar commits then false
  else if pyStartsWith ['-'] commits then false
  else commitRangePatternMatch commits

/-- `validation.is_valid_path`. -/
def is_valid_path (path : PyStr) : Bool :=
  if path.isEmpty then false
  else if containsDoubleDot (path.map fun c => if c = '\\' then '/' else c) then false
  else if pyStartsWith ['-'] path then false
  else !hasShellMetachar path

/-- `validation.sanitize_git_command_args`: rejection-only sanitizer.
The `ValueError` raise is modelled as `Except.error`. -/
def sanitize_git_command_args (args : List PyStr) : Except Unit (List PyStr) :=
  if args.all (fun a => !hasShellMetachar a) then .ok args else .error ()

/-- C10 — Implicit safety claim: every string accepted by
`is_valid_branch_name` is free of shell metacharacters, hence
`sanitize_git_command_args` can never raise on branch-validated arguments.
The code violates this: Python's `$` matches just before a trailing newline,
so `"main\n"` is accepted by the validator although it contains `"\n"`, and
the sanitizer's rejection branch fires on the branch-validated argument list
`["checkout", "main\n"]`. -/
theorem c10_branch_validator_accepts_newline :
    is_valid_branch_name ("main\n".data) = true
      ∧ ('\n' ∈ ("main\n".data))
      ∧ sanitize_git_command_args [("checkout".data), ("main\n".data)] = .error () := by
  refine ⟨by decide, by decide, by rfl⟩

/-! ### Configuration (`config.py`) and the command executor (`git_command.py`) -/

/-- The configuration fields consumed by the core (`config.Config`). -/
structure Config where
  ssh_verify : Bool
  fetch_timeout : Nat
  clone_timeout : Nat
  deriving DecidableEq

/-- Python `s.lower()` (ASCII). -/
def pyLower (s : PyStr) : PyStr := s.map Char.toLower

/-- `Config.from_environment`'s computation of `ssh_verify`:
`os.environ.get("LUCIDITY_SSH_VERIFY", "false").lower() in ("true", "1", "yes")`,
with `v` the environment variable's value (`none` when unset). -/
def ssh_verify_from_environment (v : Option PyStr) : Bool :=
  let s := pyLower (v.getD ("false".data))
  s = "true".data || s = "1".data || s = "yes".data

/-- The `GIT_SSH_COMMAND` value installed by `run_git_command` when
`config.ssh_verify` is false. -/
def sshSkipCommand : PyStr :=
  "ssh -o StrictHostKeyChecking=no -o UserKnownHostsFile=/dev/null".data

/-- The environment transformation performed by `run_git_command`
(`git_command.py` lines 93-96): when `config.ssh_verify` is false the
executor sets `GIT_SSH_COMMAND` to `sshSkipCommand`, otherwise the
environment is left untouched. -/
def run_git_command_env (config : Config) (env : PyStr → Option PyStr) :
    PyStr → Option PyStr :=
  if !config.ssh_verify then
    fun k => if k = "GIT_SSH_COMMAND".data then some sshSkipCommand else env k
  else env

/-- C1 counterexample — the claim says that with no configuration value for
SSH verification the executor does not override `GIT_SSH_COMMAND`.  In fact
`ssh_verify` defaults to false (`LUCIDITY_SSH_VERIFY` defaults to the string
`"false"`), and with that default the executor installs the host-key-skipping
`GIT_SSH_COMMAND` even though the starting environment had no such variable. -/
theorem c1_ssh_skip_is_default :
    ssh_verify_from_environment none = false
      ∧ run_git_command_env
          { ssh_verify := ssh_verify_from_environment none,
            fetch_timeout := 60, clone_timeout := 300 }
          (fun _ => none) ("GIT_SSH_COMMAND".data) = some sshSkipCommand
      ∧ (fun (_ : PyStr) => (none : Option PyStr)) ("GIT_SSH_COMMAND".data) = none := by
  refine ⟨by decide, by rfl, by rfl⟩

/-- C1 amended — host-key checking for the transport layer is skipped by
default: an unset `LUCIDITY_SSH_VERIFY` yields `ssh_verify = false`, and
whenever the flag is false `run_git_command` overrides `GIT_SSH_COMMAND`
with the skip command; the environment is preserved exactly when the flag
was explicitly enabled (`"true"`, `"1"` or `"yes"`, case-insensitively). -/
theorem c1_amended_ssh_override_iff_flag_disabled :
    ssh_verify_from_environment none = false
      ∧ (∀ v, ssh_verify_from_environment (some v) =
          (pyLower v = "true".data || pyLower v = "1".data || pyLower v = "yes".data))
      ∧ (∀ (config : Config) (env : PyStr → Option PyStr),
          config.ssh_verify = false →
            run_git_command_env config env ("GIT_SSH_COMMAND".data) = some sshSkipCommand)
      ∧ (∀ (config : Config) (env : PyStr → Option PyStr),
          config.ssh_verify = true → run_git_command_env config env = env) := by
  refine ⟨by decide, fun v => rfl, ?_, ?_⟩
  · intro config env h
    simp [run_git_command_env, h]
  · intro config env h
    simp [run_git_command_env, h]

/-- C1 amended witness. -/
theorem c1_amended_witness :
    run_git_command_env
        { ssh_verify := false, fetch_timeout := 60, clone_timeout := 300 }
        (fun _ => none) ("GIT_SSH_COMMAND".data) = some sshSkipCommand :=
  c1_amended_ssh_override_iff_flag_disabled.2.2.1
    { ssh_verify := false, fetch_timeout := 60, clone_timeout := 300 }
    (fun _ => none) rfl

/-! ### Diff retrieval (`tools/code_analysis.get_git_diff`) -/

/-- Outcome of one `run_git_command` invocation, as observed by callers:
success with captured stdout, a `GitCommandError`, a `GitTimeoutError`, or
any other exception (e.g. the sanitizer's `ValueError`). -/
inductive GitResult where
  | ok (stdout : PyStr)
  | cmdError (stderr : PyStr)
  | timedOut
  | otherError
  deriving DecidableEq

def GitResult.isOk : GitResult → Bool
  | .ok _ => true
  | _ => false

/-- The exceptions that can escape `run_git_command`. -/
inductive GitExc where
  | cmd (stderr : PyStr)
  | timeout
  | other
  deriving DecidableEq

/-- View a command outcome as the `Except` produced by `run_git_command`. -/
def GitResult.toExcept : GitResult → Except GitExc PyStr
  | .ok out => .ok out
  | .cmdError e => .error (.cmd e)
  | .timedOut => .error .timeout
  | .otherError => .error .other

/-- Repository/process environment seen by `get_git_diff`: what
`ensure_repository` resolves a workspace root to, and what each git
invocation (args, cwd) returns. -/
structure DiffEnv where
  ensureRepo : PyStr → Option PyStr
  runGit : List PyStr → PyStr → GitResult

/-- Python truthiness of an optional string (`None` and `""` are falsy). -/
def pyTruthy : Option PyStr → Bool
  | none => false
  | some s => !s.isEmpty

/-- `path.replace("\\", "/")`. -/
def normalizePath (p : PyStr) : PyStr :=
  p.map fun c => if c = '\\' then '/' else c

/-- The body of `get_git_diff`'s `try` block (lines 51-95 of
`code_analysis.py`); a raised exception is an `Except.error`. -/
def getGitDiffBody (env : DiffEnv) (workspace_root : PyStr)
    (path commits : Option PyStr) : Except GitExc (PyStr × PyStr) :=
  match env.ensureRepo workspace_root with
  | none => .ok ([], [])
  | some actual =>
    if pyTruthy commits then
      let diffArgs := ["diff".data, commits.getD []] ++
        (if pyTruthy path then [normalizePath (path.getD [])] else [])
      match (env.runGit diffArgs actual).toExcept with
      | .ok out => .ok (out, [])
      | .error e => .error e
    else
      let diffArgs := ["diff".data] ++
        (if pyTruthy path then [normalizePath (path.getD [])] else [])
      match (env.runGit diffArgs actual).toExcept with
      | .error e => .error e
      | .ok out =>
        let stagedArgs := ["diff".data, "--cached".data] ++
          (if pyTruthy path then [normalizePath (path.getD [])] else [])
        match (env.runGit stagedArgs actual).toExcept with
        | .error e => .error e
        | .ok staged => .ok (out, staged)

/-- `tools/code_analysis.get_git_diff`: validation happens before the `try`
block and returns the empty pair; every exception from the body is caught and
collapsed to the empty pair as well. -/
def get_git_diff (env : DiffEnv) (workspace_root : PyStr)
    (path commits : Option PyStr) : PyStr × PyStr :=
  if pyTruthy commits && !is_valid_commit_range (commits.getD []) then ([], [])
  else if pyTruthy path && !is_valid_path (path.getD []) then ([], [])
  else
    match getGitDiffBody env workspace_root path commits with
    | .ok r => r
    | .error _ => ([], [])

/-- C2 — `get_git_diff` never propagates an error: for every environment and
input it totally returns a pair, and that pair is either the successful value
of the underlying operations or the well-formed empty result `("", "")`
(invalid commit range, invalid path, unresolvable repository, and every git
command failure all collapse to the empty pair). -/
theorem c2_get_git_diff_total_or_empty
    (env : DiffEnv) (workspace_root : PyStr) (path commits : Option PyStr) :
    get_git_diff env workspace_root path commits = ([], [])
      ∨ getGitDiffBody env workspace_root path commits =
          .ok (get_git_diff env workspace_root path commits) := by
  unfold get_git_diff
  by_cases h1 : (pyTruthy commits && !is_valid_commit_range (commits.getD [])) = true
  · left
    simp [h1]
  · by_cases h2 : (pyTruthy path && !is_valid_path (path.getD [])) = true
    · left
      simp [h1, h2]
    · rcases hb : getGitDiffBody env workspace_root path commits with e | r
      · left
        simp [h1, h2, hb]
      · right
        simp [h1, h2, hb]

/-! ### Cache eviction sweep (`tools/git_utils.cleanup_inactive_repositories`)

The cache root is modelled as a list of entries; each entry carries the
facts the sweep inspects: whether it is a directory, whether it is a git
repository (a `.git` subdirectory exists), the mtime of the `.last_accessed`
sentinel when that file exists, the directory's own mtime, its computed
size in bytes, and whether `shutil.rmtree` would raise for it (e.g. a
permission error), since the sweep catches that exception and `continue`s
without recording the entry. -/

structure RepoEntry where
  name : PyStr
  is_dir : Bool
  is_git : Bool
  sentinel_mtime : Option Int
  dir_mtime : Int
  size : Nat
  delete_fails : Bool
  deriving DecidableEq

/-- Last-access time used by the sweep: sentinel mtime if the sentinel
exists, else the directory mtime (`git_utils.py` lines 469-477). -/
def lastAccessOf (e : RepoEntry) : Int :=
  e.sentinel_mtime.getD e.dir_mtime

structure CleanupResult where
  cache_dir : PyStr
  scanned : Nat
  removed : Nat
  freed_bytes : Nat
  repositories : List PyStr
  deriving DecidableEq

/-- Accumulated sweep statistics together with the entries still present
under the cache root afterwards. -/
structure SweepOutcome where
  scanned : Nat
  removed : Nat
  freed_bytes : Nat
  repositories : List PyStr
  remaining : List RepoEntry
  deriving DecidableEq

/-- The per-entry loop of `cleanup_inactive_repositories` (lines 455-535):
skip non-directories (not scanned), skip non-git directories (scanned only),
and for git directories compare the last-access time against the cutoff with
a strict `<`.  For a selected entry, unless `dry_run`, `shutil.rmtree` is
attempted first (lines 525-531); if it raises, the exception is logged and
the loop `continue`s, so the entry is neither counted nor recorded and stays
on disk.  Only then are `removed`, `freed_bytes` and the removal list
updated. -/
def cleanupEntries (cutoff : Int) (dry_run : Bool) : List RepoEntry → SweepOutcome
  | [] => ⟨0, 0, 0, [], []⟩
  | e :: rest =>
    let acc := cleanupEntries cutoff dry_run rest
    if !e.is_dir then { acc with remaining := e :: acc.remaining }
    else if !e.is_git then
      { acc with scanned := acc.scanned + 1, remaining := e :: acc.remaining }
    else if lastAccessOf e < cutoff then
      if !dry_run && e.delete_fails then
        { acc with scanned := acc.scanned + 1, remaining := e :: acc.remaining }
      else
        { scanned := acc.scanned + 1, removed := acc.removed + 1,
          freed_bytes := acc.freed_bytes + e.size,
          repositories := e.name :: acc.repositories,
          remaining := if dry_run then e :: acc.remaining else acc.remaining }
    else { acc with scanned := acc.scanned + 1, remaining := e :: acc.remaining }

/-- `tools/git_utils.cleanup_inactive_repositories`; returns the report and
the state of the cache root after the sweep. -/
def cleanup_inactive_repositories (cache_dir : PyStr) (cache_exists : Bool)
    (entries : List RepoEntry) (now : Int) (days : Int) (dry_run : Bool) :
    CleanupResult × List RepoEntry :=
  if !cache_exists then
    (⟨cache_dir, 0, 0, 0, []⟩, entries)
  else
    let cutoff := now - days * (24 * 60 * 60)
    let acc := cleanupEntries cutoff dry_run entries
    (⟨cache_dir, acc.scanned, acc.removed, acc.freed_bytes, acc.repositories⟩,
     acc.remaining)

/-- C3 counterexample — the claim selects an entry exactly at the boundary
(`now - lastAccess = maxInactiveDays * 86400`), but the code compares with a
strict `last_access < cutoff`, so the boundary entry is NOT selected: with
`now = 7*86400`, `days = 7` and sentinel mtime `0` the removal list is empty
although `now - lastAccess ≥ days * 86400` holds. -/
theorem c3_boundary_entry_not_selected :
    lastAccessOf ⟨"repo1".data, true, true, some 0, 0, 5, false⟩ = 0
      ∧ (7 * 86400 : Int) - 0 ≥ 7 * 86400
      ∧ (cleanup_inactive_repositories ("cache".data) true
          [⟨"repo1".data, true, true, some 0, 0, 5, false⟩]
          (7 * 86400) 7 false).1.repositories = [] := by
  refine ⟨by decide, by decide, by decide⟩

/-- C3 amended — an entry scanned by the sweep is recorded in the removal
list (removed, or reported in dry-run) if and only if it is a git directory,
`now - lastAccess > maxInactiveDays * 86400` holds STRICTLY (equivalently
`lastAccess < now - days*86400`), where `lastAccess` is the sentinel mtime if
the sentinel exists and otherwise the directory mtime, AND the sweep is a
dry run or the entry's deletion succeeds (a failed `shutil.rmtree` makes the
loop `continue` before the entry is recorded).  An entry exactly at the
boundary is retained.  The removal list is exactly the names of those
entries, in scan order. -/
theorem c3_amended_selection_is_strict
    (cache_dir : PyStr) (entries : List RepoEntry) (now days : Int)
    (dry_run : Bool) :
    (cleanup_inactive_repositories cache_dir true entries now days dry_run).1.repositories
      = (entries.filter fun e =>
          e.is_dir && e.is_git && decide (lastAccessOf e < now - days * (24 * 60 * 60))
            && (dry_run || !e.delete_fails)).map (·.name) := by
  have key : ∀ (cutoff : Int) (l : List RepoEntry),
      (cleanupEntries cutoff dry_run l).repositories
        = (l.filter fun e =>
            e.is_dir && e.is_git && decide (lastAccessOf e < cutoff)
              && (dry_run || !e.delete_fails)).map (·.name) := by
    intro cutoff l
    induction l with
    | nil => rfl
    | cons e rest ih =>
      by_cases hd : e.is_dir
      · by_cases hg : e.is_git
        · by_cases hl : lastAccessOf e < cutoff
          · cases hdry : dry_run
            · rw [hdry] at ih
              cases hdf : e.delete_fails
              · simp [cleanupEntries, hd, hg, hl, hdf, ih]
              · simp [cleanupEntries, hd, hg, hl, hdf, ih]
            · rw [hdry] at ih
              simp [cleanupEntries, hd, hg, hl, ih]
          · simp [cleanupEntries, hd, hg, hl, ih]
        · simp [cleanupEntries, hd, hg, ih]
      · simp [cleanupEntries, hd, ih]
  simp [cleanup_inactive_repositories, key]

/-- C3 amended witness. -/
theorem c3_amended_witness :
    (cleanup_inactive_repositories ("cache".data) true
        [⟨"old".data, true, true, some 0, 0, 5, false⟩,
         ⟨"stuck".data, true, true, some 0, 0, 7, true⟩,
         ⟨"new".data, true, true, some (7 * 86400), 0, 5, false⟩]
        (10 * 86400) 7 false).1.repositories = ["old".data] := by
  have h := c3_amended_selection_is_strict ("cache".data)
    [⟨"old".data, true, true, some 0, 0, 5, false⟩,
     ⟨"stuck".data, true, true, some 0, 0, 7, true⟩,
     ⟨"new".data, true, true, some (7 * 86400), 0, 5, false⟩]
    (10 * 86400) 7 false
  rw [h]
  decide

/-- C4 counterexample — the claim says the dry-run report always equals the
real sweep's report.  When a selected entry's deletion fails, the real sweep
`continue`s before recording it (lines 529-531), so with one strictly
inactive entry whose `shutil.rmtree` raises, the dry run reports it while
the real sweep reports nothing: the two reports differ. -/
theorem c4_report_differs_when_deletion_fails :
    (cleanup_inactive_repositories ("cache".data) true
        [⟨"stuck".data, true, true, some 0, 0, 5, true⟩]
        (10 * 86400) 7 true).1.repositories = ["stuck".data]
      ∧ (cleanup_inactive_repositories ("cache".data) true
          [⟨"stuck".data, true, true, some 0, 0, 5, true⟩]
          (10 * 86400) 7 false).1.repositories = []
      ∧ (cleanup_inactive_repositories ("cache".data) true
          [⟨"stuck".data, true, true, some 0, 0, 5, true⟩]
          (10 * 86400) 7 true).1
        ≠ (cleanup_inactive_repositories ("cache".data) true
            [⟨"stuck".data, true, true, some 0, 0, 5, true⟩]
            (10 * 86400) 7 false).1 := by
  refine ⟨by decide, by decide, by decide⟩

/-- C4 amended — a dry-run sweep deletes nothing: after it, every entry
under the cache root is unchanged.  Its report (cache dir, counts, freed
bytes and removal list) equals the real sweep's report whenever no entry's
deletion fails; when a selected entry's `shutil.rmtree` raises, the real
sweep omits that entry from `removed`/`freed_bytes`/`repositories` while the
dry run records it. -/
theorem c4_amended_dry_run_frame_and_report
    (cache_dir : PyStr) (cache_exists : Bool) (entries : List RepoEntry)
    (now days : Int) :
    ((cleanup_inactive_repositories cache_dir cache_exists entries now days true).2
        = entries)
      ∧ ((∀ e ∈ entries, e.delete_fails = false) →
          (cleanup_inactive_repositories cache_dir cache_exists entries now days true).1
            = (cleanup_inactive_repositories cache_dir cache_exists entries now days false).1) := by
  have keyframe : ∀ (cutoff : Int) (l : List RepoEntry),
      (cleanupEntries cutoff true l).remaining = l := by
    intro cutoff l
    induction l with
    | nil => rfl
    | cons e rest ih =>
      by_cases hd : e.is_dir
      · by_cases hg : e.is_git
        · by_cases hl : lastAccessOf e < cutoff
          · simp [cleanupEntries, hd, hg, hl, ih]
          · simp [cleanupEntries, hd, hg, hl, ih]
        · simp [cleanupEntries, hd, hg, ih]
      · simp [cleanupEntries, hd, ih]
  have key : ∀ (cutoff : Int) (l : List RepoEntry), (∀ e ∈ l, e.delete_fails = false) →
      (cleanupEntries cutoff true l).scanned = (cleanupEntries cutoff false l).scanned
        ∧ (cleanupEntries cutoff true l).removed = (cleanupEntries cutoff false l).removed
        ∧ (cleanupEntries cutoff true l).freed_bytes
            = (cleanupEntries cutoff false l).freed_bytes
        ∧ (cleanupEntries cutoff true l).repositories
            = (cleanupEntries cutoff false l).repositories := by
    intro cutoff l
    induction l with
    | nil => intro _; simp [cleanupEntries]
    | cons e rest ih =>
      intro hall
      have hdf : e.delete_fails = false := hall e (List.mem_cons_self e rest)
      obtain ⟨h1, h2, h3, h4⟩ := ih fun x hx => hall x (List.mem_cons_of_mem e hx)
      by_cases hd : e.is_dir
      · by_cases hg : e.is_git
        · by_cases hl : lastAccessOf e < cutoff
          · simp [cleanupEntries, hd, hg, hl, hdf, h1, h2, h3, h4]
          · simp [cleanupEntries, hd, hg, hl, h1, h2, h3, h4]
        · simp [cleanupEntries, hd, hg, h1, h2, h3, h4]
      · simp [cleanupEntries, hd, h1, h2, h3, h4]
  cases cache_exists
  · exact ⟨rfl, fun _ => rfl⟩
  · constructor
    · simp [cleanup_inactive_repositories, keyframe]
    · intro hall
      obtain ⟨h1, h2, h3, h4⟩ := key (now - days * (24 * 60 * 60)) entries hall
      simp only [cleanup_inactive_repositories]
      rw [h1, h2, h3, h4]
      simp

/-- C4 amended witness. -/
theorem c4_amended_witness :
    (cleanup_inactive_repositories ("cache".data) true
        [⟨"old".data, true, true, some 0, 0, 5, false⟩,
         ⟨"new".data, true, true, some (7 * 86400), 0, 5, false⟩]
        (10 * 86400) 7 true).1
      = (cleanup_inactive_repositories ("cache".data) true
          [⟨"old".data, true, true, some 0, 0, 5, false⟩,
           ⟨"new".data, true, true, some (7 * 86400), 0, 5, false⟩]
          (10 * 86400) 7 false).1 :=
  (c4_amended_dry_run_frame_and_report ("cache".data) true
      [⟨"old".data, true, true, some 0, 0, 5, false⟩,
       ⟨"new".data, true, true, some (7 * 86400), 0, 5, false⟩]
      (10 * 86400) 7).2 (by decide)

/-! ### Identifier resolver (`tools/git_utils.extract_repo_info_from_path`) -/

/-- A parsed remote specification (the dictionary with `url`, `name` and
optional `branch` keys; `branch` present iff a valid branch was detected). -/
structure RepoInfo where
  url : PyStr
  name : PyStr
  branch : Option PyStr
  deriving DecidableEq

/-- `git_utils._extract_repo_name`: strip trailing `/` and a `.git` suffix,
normalize `:` to `/`, and take the final path segment. -/
def extract_repo_name (url : PyStr) : PyStr :=
  let url1 := pyRStrip '/' url
  let url2 := if pyEndsWith (".git".data) url1 then url1.take (url1.length - 4) else url1
  let parts := pySplit '/' (url2.map fun c => if c = ':' then '/' else c)
  match parts.getLast? with
  | some p => p
  | none => "repo".data

/-- The branch-detection phase of `extract_repo_info_from_path`
(`git_utils.py` lines 79-111): returns the possibly-stripped string and the
detected branch. -/
def detectBranch (ws : PyStr) : PyStr × Option PyStr :=
  if pyStartsWith ("git@".data) ws then
    match pyFindFrom '@' ws 4 with
    | some second_at =>
      let branch := ws.drop (second_at + 1)
      let ws' := ws.take second_at
      if is_valid_branch_name branch then (ws', some branch)
      else (ws' ++ '@' :: branch, none)
    | none => (ws, none)
  else if decide ('@' ∈ ws) &&
      !(pyStartsWith ("http://".data) ws || pyStartsWith ("https://".data) ws) then
    match pyRSplitLast '@' ws with
    | some (a, b) => if is_valid_branch_name b then (a, some b) else (ws, none)
    | none => (ws, none)
  else if pyStartsWith ("https://".data) ws || pyStartsWith ("http://".data) ws then
    if decide ('@' ∈ ws) then
      match pyRSplitLast '@' ws with
      | some (a, b) => if is_valid_branch_name b then (a, some b) else (ws, none)
      | none => (ws, none)
    else (ws, none)
  else (ws, none)

/-- The classification phase of `extract_repo_info_from_path`
(`git_utils.py` lines 113-158). -/
def classify (ws : PyStr) (branch : Option PyStr) : Option RepoInfo :=
  if pyStartsWith ("git@".data) ws then
    some ⟨ws, extract_repo_name ws, branch⟩
  else if pyStartsWith ("https://".data) ws || pyStartsWith ("http://".data) ws then
    some ⟨ws, extract_repo_name ws, branch⟩
  else if decide ('/' ∈ ws) && !pyStartsWith ("/".data) ws then
    let parts := pySplit '/' ws
    if 3 ≤ parts.length && parts.headD [] = "github.com".data then
      let username := parts.getD 1 []
      let repo := parts.getD 2 []
      some ⟨"git@github.com:".data ++ username ++ '/' :: (repo ++ ".git".data),
            extract_repo_name repo, branch⟩
    else if parts.length = 2 && !pyStartsWith (".".data) (parts.headD []) then
      let username := parts.headD []
      let repo := parts.getD 1 []
      some ⟨"git@github.com:".data ++ username ++ '/' :: (repo ++ ".git".data),
            extract_repo_name repo, branch⟩
    else none
  else none

/-- `tools/git_utils.extract_repo_info_from_path`, with the filesystem
modelled by an existence predicate (`os.path.exists`). -/
def extract_repo_info_from_path (fsExists : PyStr → Bool)
    (workspace_root : PyStr) : Option RepoInfo :=
  if workspace_root.isEmpty then none
  else if fsExists workspace_root then none
  else
    let ws := pyStrip workspace_root
    let (ws', branch) := detectBranch ws
    classify ws' branch

theorem resolver_shorthand_eval :
    extract_repo_info_from_path (fun _ => false) ("owner/repo".data)
      = some ⟨"git@github.com:owner/repo.git".data, "repo".data, none⟩ := by decide

theorem resolver_hostpath_eval :
    extract_repo_info_from_path (fun _ => false) ("github.com/u/r".data)
      = some ⟨"git@github.com:u/r.git".data, "r".data, none⟩ := by decide

theorem resolver_shorthand_branch_eval :
    extract_repo_info_from_path (fun _ => false) ("owner/repo@release-1.0".data)
      = some ⟨"git@github.com:owner/repo.git".data, "repo".data,
              some ("release-1.0".data)⟩ := by decide

theorem resolver_ssh_branch_eval :
    extract_repo_info_from_path (fun _ => false)
        ("git@github.com:owner/repo.git@develop".data)
      = some ⟨"git@github.com:owner/repo.git".data, "repo".data,
              some ("develop".data)⟩ := by decide

theorem resolver_https_eval :
    extract_repo_info_from_path (fun _ => false)
        ("https://github.com/owner/repo.git".data)
      = some ⟨"https://github.com/owner/repo.git".data, "repo".data, none⟩ := by decide

theorem resolver_leading_slash_eval :
    extract_repo_info_from_path (fun _ => false) ("/repo".data) = none := by decide

theorem pyStartsWith_iff (p : PyStr) :
    ∀ s, pyStartsWith p s = true ↔ p <+: s := by
  induction p with
  | nil => intro s; simp [pyStartsWith]
  | cons a ps ih =>
    intro s
    cases s with
    | nil => simp [pyStartsWith]
    | cons b xs => simp [pyStartsWith, ih, List.cons_prefix_cons]

theorem pyFindFrom_split (c : Char) :
    ∀ (s : PyStr) (n i : Nat), pyFindFrom c s n = some i →
      s.take i ++ c :: s.drop (i + 1) = s := by
  intro s
  induction s with
  | nil => intro n i h; simp [pyFindFrom] at h
  | cons x xs ih =>
    intro n i h
    cases n with
    | zero =>
      by_cases hx : x = c
      · simp [pyFindFrom, hx] at h
        subst h
        simp [hx]
      · simp [pyFindFrom, hx] at h
        obtain ⟨j, hj, rfl⟩ := h
        simpa using congrArg (x :: ·) (ih 0 j hj)
    | succ m =>
      simp [pyFindFrom] at h
      obtain ⟨j, hj, rfl⟩ := h
      simpa using congrArg (x :: ·) (ih m j hj)

theorem pySplit_single {c : Char} : ∀ {l : PyStr}, c ∉ l → pySplit c l = [l] := by
  intro l
  induction l with
  | nil => intro _; rfl
  | cons x xs ih =>
    intro h
    have hx : ¬ x = c := fun e => h (e ▸ List.mem_cons_self x xs)
    have hxs : c ∉ xs := fun m => h (List.mem_cons_of_mem x m)
    simp [pySplit, hx, ih hxs]

theorem pySplit_append {c : Char} :
    ∀ {a : PyStr} (b : PyStr), c ∉ a → pySplit c (a ++ c :: b) = a :: pySplit c b := by
  intro a
  induction a with
  | nil => intro b _; simp [pySplit]
  | cons x xs ih =>
    intro b h
    have hx : ¬ x = c := fun e => h (e ▸ List.mem_cons_self x xs)
    have hxs : c ∉ xs := fun m => h (List.mem_cons_of_mem x m)
    have step := ih b hxs
    simp only [List.cons_append, pySplit, hx, if_neg, List.append_eq]
    rw [step]
    simp

theorem pySplit_pair {a b : PyStr} {c : Char} (ha : c ∉ a) (hb : c ∉ b) :
    pySplit c (a ++ c :: b) = [a, b] := by
  rw [pySplit_append b ha, pySplit_single hb]

theorem dropWhile_eq_self_of_not {p : Char → Bool} :
    ∀ {l : PyStr}, (∀ x ∈ l, ¬ p x) → l.dropWhile p = l := by
  intro l h
  cases l with
  | nil => rfl
  | cons x xs =>
    have hx : p x = false := by
      have := h x (List.mem_cons_self x xs)
      simp_all
    simp [List.dropWhile_cons, hx]

/-- `_extract_repo_name` on a string without `/` or `:` is just
".git"-suffix stripping. -/
theorem extract_repo_name_plain {repo : PyStr}
    (hs : '/' ∉ repo) (hc : ':' ∉ repo) :
    extract_repo_name repo
      = (if pyEndsWith (".git".data) repo then repo.take (repo.length - 4) else repo) := by
  have h1 : pyRStrip '/' repo = repo := by
    unfold pyRStrip
    rw [dropWhile_eq_self_of_not, List.reverse_reverse]
    intro x hx
    simp only [List.mem_reverse] at hx
    simp only [decide_eq_true_eq]
    exact fun e => hs (e ▸ hx)
  set t : PyStr := if pyEndsWith (".git".data) repo then repo.take (repo.length - 4) else repo with ht
  have hts : t.Sublist repo := by
    rw [ht]
    split
    · exact List.take_sublist _ _
    · exact List.Sublist.refl _
  have htsl : '/' ∉ t := fun m => hs (hts.mem m)
  have htc : ':' ∉ t := fun m => hc (hts.mem m)
  have hmap : (t.map fun c => if c = ':' then '/' else c) = t := by
    have : ∀ x ∈ t, (if x = ':' then '/' else x) = x := by
      intro x hx
      rw [if_neg (fun e : x = ':' => htc (e ▸ hx))]
    calc (t.map fun c => if c = ':' then '/' else c) = t.map id := List.map_congr_left this
    _ = t := List.map_id t
  simp only [extract_repo_name]
  rw [h1, ← ht, hmap, pySplit_single htsl]
  rfl

/-- C6 — trailing-branch detection: for an SSH-style string (`git@...`) the
candidate branch is the substring after the second `@` (the first `@` found
searching from offset 4); whenever no branch is detected — in particular
whenever the candidate fails `is_valid_branch_name` — the resolver keeps the
whole original string intact (including the `@` and the candidate); and
`resolve("git@github.com:owner/repo.git@develop")` yields url
`git@github.com:owner/repo.git` with branch `develop`. -/
theorem c6_ssh_branch_detection :
    (∀ s, pyStartsWith ("git@".data) s = true →
        detectBranch s =
          match pyFindFrom '@' s 4 with
          | none => (s, none)
          | some i =>
            if is_valid_branch_name (s.drop (i + 1))
            then (s.take i, some (s.drop (i + 1)))
            else (s, none))
      ∧ (∀ s, (detectBranch s).2 = none → (detectBranch s).1 = s)
      ∧ extract_repo_info_from_path (fun _ => false)
            ("git@github.com:owner/repo.git@develop".data)
          = some ⟨"git@github.com:owner/repo.git".data, "repo".data,
                  some ("develop".data)⟩ := by
  refine ⟨?_, ?_, by decide⟩
  · intro s hs
    unfold detectBranch
    rw [if_pos hs]
    cases hf : pyFindFrom '@' s 4 with
    | none => rfl
    | some i =>
      by_cases hv : is_valid_branch_name (s.drop (i + 1)) = true
      · simp [hv]
      · simp only [Bool.not_eq_true] at hv
        simp [hv, pyFindFrom_split '@' s 4 i hf]
  · intro s h
    unfold detectBranch at h ⊢
    by_cases h1 : pyStartsWith ("git@".data) s = true
    · rw [if_pos h1] at h ⊢
      cases hf : pyFindFrom '@' s 4 with
      | none => simp [hf]
      | some i =>
        by_cases hv : is_valid_branch_name (s.drop (i + 1)) = true
        · rw [hf] at h
          simp [hv] at h
        · simp only [Bool.not_eq_true] at hv
          simp [hf, hv, pyFindFrom_split '@' s 4 i hf]
    · rw [if_neg h1] at h ⊢
      by_cases h2 : (decide ('@' ∈ s) &&
          !(pyStartsWith ("http://".data) s || pyStartsWith ("https://".data) s)) = true
      · rw [if_pos h2] at h ⊢
        cases hr : pyRSplitLast '@' s with
        | none => simp [hr]
        | some ab =>
          obtain ⟨a, b⟩ := ab
          by_cases hv : is_valid_branch_name b = true
          · rw [hr] at h
            simp [hv] at h
          · simp only [Bool.not_eq_true] at hv
            simp [hr, hv]
      · rw [if_neg h2] at h ⊢
        by_cases h3 : (pyStartsWith ("https://".data) s ||
            pyStartsWith ("http://".data) s) = true
        · rw [if_pos h3] at h ⊢
          by_cases h4 : decide ('@' ∈ s) = true
          · rw [if_pos h4] at h ⊢
            cases hr : pyRSplitLast '@' s with
            | none => simp [hr]
            | some ab =>
              obtain ⟨a, b⟩ := ab
              by_cases hv : is_valid_branch_name b = true
              · rw [hr] at h
                simp [hv] at h
              · simp only [Bool.not_eq_true] at hv
                simp [hr, hv]
          · rw [if_neg h4] at h ⊢
        · rw [if_neg h3] at h ⊢

/-- C6 witness. -/
theorem c6_ssh_branch_detection_witness :
    detectBranch ("git@github.com:owner/repo.git@develop".data)
      = ("git@github.com:owner/repo.git".data, some ("develop".data)) := by
  have h := c6_ssh_branch_detection.1 ("git@github.com:owner/repo.git@develop".data)
    (by decide)
  rw [h]
  decide

/-- C5 counterexample — `"owner/repo@develop"` has exactly two
slash-separated segments whose first does not start with a dot, yet the
resolver strips the valid trailing `@develop` and returns a branch, instead
of the claim's branch-free remote built from the literal segments. -/
theorem c5_shorthand_claim_fails_on_branch_suffix :
    pySplit '/' ("owner/repo@develop".data) = ["owner".data, "repo@develop".data]
      ∧ pyStartsWith (".".data) ("owner".data) = false
      ∧ extract_repo_info_from_path (fun _ => false) ("owner/repo@develop".data)
          = some ⟨"git@github.com:owner/repo.git".data, "repo".data,
                  some ("develop".data)⟩
      ∧ extract_repo_info_from_path (fun _ => false) ("owner/repo@develop".data)
          ≠ some ⟨"git@github.com:owner/repo@develop.git".data, "repo@develop".data,
                  none⟩ := by
  refine ⟨by decide, by decide, by decide, by decide⟩

/-- C5 amended — the shorthand rule holds for `owner/repo` strings once the
claim's conditions are tightened to the guards the code actually applies:
the string must contain no `@` (otherwise a valid trailing branch is
stripped and reported), must not begin with `/`, must carry no surrounding
whitespace, and the repo segment must contain no `:` (which the name
derivation would rewrite to `/`).  Under those conditions the resolver
returns `git@github.com:owner/repo.git`, name = the second segment with a
trailing `.git` stripped, and no branch. -/
theorem c5_amended_shorthand (fsExists : PyStr → Bool) (owner repo : PyStr)
    (hfs : fsExists (owner ++ '/' :: repo) = false)
    (how : owner ≠ [])
    (hos : '/' ∉ owner) (hrs : '/' ∉ repo)
    (hoa : '@' ∉ owner) (hra : '@' ∉ repo)
    (hdot : pyStartsWith (".".data) owner = false)
    (hcolon : ':' ∉ repo)
    (hstrip : pyStrip (owner ++ '/' :: repo) = owner ++ '/' :: repo) :
    extract_repo_info_from_path fsExists (owner ++ '/' :: repo)
      = some ⟨"git@github.com:".data ++ owner ++ '/' :: (repo ++ ".git".data),
              (if pyEndsWith (".git".data) repo then repo.take (repo.length - 4)
               else repo),
              none⟩ := by
  have hsne : (owner ++ '/' :: repo).isEmpty = false := by
    cases owner <;> rfl
  have hAt : '@' ∉ owner ++ '/' :: repo := by
    intro m
    rcases List.mem_append.mp m with h | h
    · exact hoa h
    · rcases List.mem_cons.mp h with h' | h'
      · exact absurd h' (by decide)
      · exact hra h'
  have hgit : pyStartsWith ("git@".data) (owner ++ '/' :: repo) = false := by
    cases hq : pyStartsWith ("git@".data) (owner ++ '/' :: repo)
    · rfl
    · exfalso
      have hp := (pyStartsWith_iff ("git@".data) (owner ++ '/' :: repo)).mp hq
      exact hAt (hp.subset (show '@' ∈ "git@".data by decide))
  have hcount : List.count '/' (owner ++ '/' :: repo) = 1 := by
    have h1 : List.count '/' owner = 0 := List.count_eq_zero.mpr hos
    have h2 : List.count '/' repo = 0 := List.count_eq_zero.mpr hrs
    simp [List.count_append, List.count_cons, h1, h2]
  have hhttp : pyStartsWith ("http://".data) (owner ++ '/' :: repo) = false := by
    cases hq : pyStartsWith ("http://".data) (owner ++ '/' :: repo)
    · rfl
    · have hle := (((pyStartsWith_iff _ _).mp hq).sublist).count_le '/'
      rw [hcount] at hle
      exact absurd hle (by decide)
  have hhttps : pyStartsWith ("https://".data) (owner ++ '/' :: repo) = false := by
    cases hq : pyStartsWith ("https://".data) (owner ++ '/' :: repo)
    · rfl
    · have hle := (((pyStartsWith_iff _ _).mp hq).sublist).count_le '/'
      rw [hcount] at hle
      exact absurd hle (by decide)
  have hslash : '/' ∈ owner ++ '/' :: repo :=
    List.mem_append.mpr (Or.inr (List.mem_cons_self _ _))
  have hstart : pyStartsWith ("/".data) (owner ++ '/' :: repo) = false := by
    cases owner with
    | nil => exact absurd rfl how
    | cons o0 orest =>
      have ho0 : ¬ ('/' = o0) := fun e => hos (e ▸ List.mem_cons_self o0 orest)
      simp [pyStartsWith, ho0]
  have hdb : detectBranch (owner ++ '/' :: repo) = (owner ++ '/' :: repo, none) := by
    simp [detectBranch, hgit, hAt, hhttp, hhttps]
  simp only [extract_repo_info_from_path, hsne, hfs, hstrip, hdb, Bool.false_eq_true,
    if_false]
  simp [classify, hgit, hhttp, hhttps, hslash, hstart, pySplit_pair hos hrs, hdot,
    extract_repo_name_plain hrs hcolon]

/-- C5 amended witness. -/
theorem c5_amended_shorthand_witness :
    extract_repo_info_from_path (fun _ => false) ("owner/repo".data)
      = some ⟨"git@github.com:owner/repo.git".data, "repo".data, none⟩ := by
  have e : ("owner".data : PyStr) ++ '/' :: "repo".data = "owner/repo".data := by decide
  have h := c5_amended_shorthand (fun _ => false) ("owner".data) ("repo".data)
    rfl (by decide) (by decide) (by decide) (by decide) (by decide) (by decide)
    (by decide) (by decide)
  rw [e] at h
  rw [h]
  decide

/-! ### Code extraction (`tools/code_analysis.extract_code_from_diff`) -/

/-- The loop body of `extract_code_from_diff` (lines 245-255): append the
line's remainder to the appropriate accumulator(s). -/
def extractCodeStep (acc : List PyStr × List PyStr) (line : PyStr) :
    List PyStr × List PyStr :=
  if pyStartsWith ("+".data) line && !pyStartsWith ("+++".data) line then
    (acc.1, acc.2 ++ [line.drop 1])
  else if pyStartsWith ("-".data) line && !pyStartsWith ("---".data) line then
    (acc.1 ++ [line.drop 1], acc.2)
  else if pyStartsWith (" ".data) line then
    (acc.1 ++ [line.drop 1], acc.2 ++ [line.drop 1])
  else acc

/-- The loop of `extract_code_from_diff`, folded over the content lines with
the two accumulator lists. -/
def extract_code_lines (lines : List PyStr) : List PyStr × List PyStr :=
  lines.foldl extractCodeStep ([], [])

/-- `tools/code_analysis.extract_code_from_diff` applied to a record's
`content` string. -/
def extract_code_from_diff (content : PyStr) : PyStr × PyStr :=
  let (original_lines, modified_lines) := extract_code_lines (pySplit '\n' content)
  (pyJoin '\n' original_lines, pyJoin '\n' modified_lines)

/-- The claim's per-line contribution to the original side. -/
def originalSel (line : PyStr) : Option PyStr :=
  if pyStartsWith ("+".data) line && !pyStartsWith ("+++".data) line then none
  else if pyStartsWith ("-".data) line && !pyStartsWith ("---".data) line then
    some (line.drop 1)
  else if pyStartsWith (" ".data) line then some (line.drop 1)
  else none

/-- The claim's per-line contribution to the modified side. -/
def modifiedSel (line : PyStr) : Option PyStr :=
  if pyStartsWith ("+".data) line && !pyStartsWith ("+++".data) line then
    some (line.drop 1)
  else if pyStartsWith ("-".data) line && !pyStartsWith ("---".data) line then none
  else if pyStartsWith (" ".data) line then some (line.drop 1)
  else none

/-- C7 — `extract_code_from_diff` maps a `+` (not `+++`) line's remainder to
the modified output only, a `-` (not `---`) line's remainder to the original
output only, and a space-prefixed line's remainder to both, preserving the
relative order per side; content lines `[" a", "+b", "-c"]` yield original
`["a", "c"]` and modified `["a", "b"]`. -/
theorem c7_extract_code_line_mapping :
    (∀ lines, extract_code_lines lines
        = (lines.filterMap originalSel, lines.filterMap modifiedSel))
      ∧ extract_code_from_diff (" a\n+b\n-c".data)
          = ("a\nc".data, "a\nb".data) := by
  constructor
  · have key : ∀ (lines : List PyStr) (o m : List PyStr),
        lines.foldl extractCodeStep (o, m)
          = (o ++ lines.filterMap originalSel, m ++ lines.filterMap modifiedSel) := by
      intro lines
      induction lines with
      | nil => intro o m; simp
      | cons l rest ih =>
        intro o m
        rw [List.foldl_cons]
        by_cases h1 : (pyStartsWith ("+".data) l && !pyStartsWith ("+++".data) l) = true
        · have hstep : extractCodeStep (o, m) l = (o, m ++ [l.drop 1]) := by
            simp [extractCodeStep, h1]
          have ho : originalSel l = none := by simp [originalSel, h1]
          have hm : modifiedSel l = some (l.drop 1) := by simp [modifiedSel, h1]
          rw [hstep, ih, List.filterMap_cons, List.filterMap_cons, ho, hm]
          simp
        · by_cases h2 : (pyStartsWith ("-".data) l && !pyStartsWith ("---".data) l) = true
          · have hstep : extractCodeStep (o, m) l = (o ++ [l.drop 1], m) := by
              simp [extractCodeStep, h1, h2]
            have ho : originalSel l = some (l.drop 1) := by simp [originalSel, h1, h2]
            have hm : modifiedSel l = none := by simp [modifiedSel, h1, h2]
            rw [hstep, ih, List.filterMap_cons, List.filterMap_cons, ho, hm]
            simp
          · by_cases h3 : pyStartsWith (" ".data) l = true
            · have hstep : extractCodeStep (o, m) l = (o ++ [l.drop 1], m ++ [l.drop 1]) := by
                simp [extractCodeStep, h1, h2, h3]
              have ho : originalSel l = some (l.drop 1) := by simp [originalSel, h1, h2, h3]
              have hm : modifiedSel l = some (l.drop 1) := by simp [modifiedSel, h1, h2, h3]
              rw [hstep, ih, List.filterMap_cons, List.filterMap_cons, ho, hm]
              simp
            · have hstep : extractCodeStep (o, m) l = (o, m) := by
                simp [extractCodeStep, h1, h2, h3]
              have ho : originalSel l = none := by simp [originalSel, h1, h2, h3]
              have hm : modifiedSel l = none := by simp [modifiedSel, h1, h2, h3]
              rw [hstep, ih, List.filterMap_cons, List.filterMap_cons, ho, hm]
    intro lines
    simpa [extract_code_lines] using key lines [] []
  · decide

/-! ### Repository update (`tools/git_utils.update_repository`)

The subprocess layer is an oracle `run : args → cwd → timeout → GitResult`;
the list of issued `run_git_command` invocations is returned alongside the
boolean result so that the timeouts actually used are observable. -/

structure GitCall where
  args : List PyStr
  cwd : PyStr
  timeout : Nat
  deriving DecidableEq

/-- `tools/git_utils.update_repository` (lines 292-354): validate the branch,
require a git repository, then fetch (fetch timeout), optionally checkout
(hardcoded 30-second timeout), then pull (fetch timeout); the first failing
step aborts with `False`. -/
def update_repository (run : List PyStr → PyStr → Nat → GitResult)
    (config : Config) (repo_path : PyStr) (branch : Option PyStr)
    (is_repo : Bool) : Bool × List GitCall :=
  if pyTruthy branch && !is_valid_branch_name (branch.getD []) then (false, [])
  else if !is_repo then (false, [])
  else
    let fetchCall : GitCall :=
      ⟨["fetch".data, "--all".data], repo_path, config.fetch_timeout⟩
    match run fetchCall.args fetchCall.cwd fetchCall.timeout with
    | .ok _ =>
      if pyTruthy branch then
        let checkoutCall : GitCall :=
          ⟨["checkout".data, branch.getD []], repo_path, 30⟩
        match run checkoutCall.args checkoutCall.cwd checkoutCall.timeout with
        | .ok _ =>
          let pullCall : GitCall := ⟨["pull".data], repo_path, config.fetch_timeout⟩
          match run pullCall.args pullCall.cwd pullCall.timeout with
          | .ok _ => (true, [fetchCall, checkoutCall, pullCall])
          | _ => (false, [fetchCall, checkoutCall, pullCall])
        | _ => (false, [fetchCall, checkoutCall])
      else
        let pullCall : GitCall := ⟨["pull".data], repo_path, config.fetch_timeout⟩
        match run pullCall.args pullCall.cwd pullCall.timeout with
        | .ok _ => (true, [fetchCall, pullCall])
        | _ => (false, [fetchCall, pullCall])
    | _ => (false, [fetchCall])

/-- A subprocess oracle on which every git command succeeds. -/
def allOkRunner : List PyStr → PyStr → Nat → GitResult := fun _ _ _ => .ok []

/-- C8 counterexample — the claim says every step of the update runs with
the configured fetch timeout class.  With `fetch_timeout = 60` (the
default) and a branch given, the issued timeouts are `[60, 30, 60]`: the
checkout step runs with a hardcoded 30-second timeout, not the fetch
timeout. -/
theorem c8_checkout_timeout_not_fetch_class :
    ((update_repository allOkRunner ⟨false, 60, 300⟩ ("/r".data)
        (some ("develop".data)) true).2.map (fun call => call.timeout)) = [60, 30, 60]
      ∧ ¬ (∀ call ∈ (update_repository allOkRunner ⟨false, 60, 300⟩ ("/r".data)
            (some ("develop".data)) true).2,
          call.timeout = (⟨false, 60, 300⟩ : Config).fetch_timeout) := by
  refine ⟨by decide, by decide⟩

/-- C8 amended — every issued step of `update_repository` runs in the
repository directory; the fetch and pull steps use the configured fetch
timeout while the checkout step (only issued when a branch was given) uses a
hardcoded 30-second timeout; on success every issued step succeeded; and any
step failing aborts the update: the result is `False` and the failing step
is the last command issued. -/
theorem c8_amended_update_steps (run : List PyStr → PyStr → Nat → GitResult)
    (config : Config) (repo_path : PyStr) (branch : Option PyStr) (is_repo : Bool) :
    (∀ call ∈ (update_repository run config repo_path branch is_repo).2,
        call.cwd = repo_path ∧
          ((call.args = ["fetch".data, "--all".data] ∧ call.timeout = config.fetch_timeout)
            ∨ (∃ b, branch = some b ∧ call.args = ["checkout".data, b] ∧ call.timeout = 30)
            ∨ (call.args = ["pull".data] ∧ call.timeout = config.fetch_timeout)))
      ∧ ((update_repository run config repo_path branch is_repo).1 = true →
          ∀ call ∈ (update_repository run config repo_path branch is_repo).2,
            (run call.args call.cwd call.timeout).isOk = true)
      ∧ ((update_repository run config repo_path branch is_repo).1 = false →
          (update_repository run config repo_path branch is_repo).2 = []
            ∨ ∃ pre call,
                (update_repository run config repo_path branch is_repo).2 = pre ++ [call]
                  ∧ (run call.args call.cwd call.timeout).isOk = false) := by
  by_cases hv : (pyTruthy branch && !is_valid_branch_name (branch.getD [])) = true
  · have hu : update_repository run config repo_path branch is_repo = (false, []) := by
      simp only [update_repository]
      rw [if_pos hv]
    rw [hu]
    refine ⟨?_, ?_, ?_⟩ <;> simp
  · by_cases hrep : is_repo = true
    · cases hf : run ["fetch".data, "--all".data] repo_path config.fetch_timeout with
      | ok out =>
        by_cases hb : pyTruthy branch = true
        · obtain ⟨b, rfl⟩ : ∃ b, branch = some b := by
            cases branch with
            | none => simp [pyTruthy] at hb
            | some s => exact ⟨s, rfl⟩
          cases hc : run ["checkout".data, b] repo_path 30 with
          | ok out2 =>
            cases hp : run ["pull".data] repo_path config.fetch_timeout with
            | ok out3 =>
              have hu : update_repository run config repo_path (some b) is_repo
                  = (true, [⟨["fetch".data, "--all".data], repo_path, config.fetch_timeout⟩,
                            ⟨["checkout".data, b], repo_path, 30⟩,
                            ⟨["pull".data], repo_path, config.fetch_timeout⟩]) := by
                simp only [update_repository, hrep]
                rw [if_neg hv]
                simp [hf, hb, hc, hp]
              rw [hu]
              refine ⟨?_, ?_, ?_⟩
              · intro call hcall
                simp only [List.mem_cons, List.not_mem_nil, or_false] at hcall
                rcases hcall with rfl | rfl | rfl
                · exact ⟨rfl, Or.inl ⟨rfl, rfl⟩⟩
                · exact ⟨rfl, Or.inr (Or.inl ⟨b, rfl, rfl, rfl⟩)⟩
                · exact ⟨rfl, Or.inr (Or.inr ⟨rfl, rfl⟩)⟩
              · intro _ call hcall
                simp only [List.mem_cons, List.not_mem_nil, or_false] at hcall
                rcases hcall with rfl | rfl | rfl
                · simp [hf, GitResult.isOk]
                · simp [hc, GitResult.isOk]
                · simp [hp, GitResult.isOk]
              · intro h
                cases h
            | cmdError e =>
              have hu : update_repository run config repo_path (some b) is_repo
                  = (false, [⟨["fetch".data, "--all".data], repo_path, config.fetch_timeout⟩,
                             ⟨["checkout".data, b], repo_path, 30⟩,
                             ⟨["pull".data], repo_path, config.fetch_timeout⟩]) := by
                simp only [update_repository, hrep]
                rw [if_neg hv]
                simp [hf, hb, hc, hp]
              rw [hu]
              refine ⟨?_, ?_, ?_⟩
              · intro call hcall
                simp only [List.mem_cons, List.not_mem_nil, or_false] at hcall
                rcases hcall with rfl | rfl | rfl
                · exact ⟨rfl, Or.inl ⟨rfl, rfl⟩⟩
                · exact ⟨rfl, Or.inr (Or.inl ⟨b, rfl, rfl, rfl⟩)⟩
                · exact ⟨rfl, Or.inr (Or.inr ⟨rfl, rfl⟩)⟩
              · intro h
                cases h
              · intro _
                right
                exact ⟨[⟨["fetch".data, "--all".data], repo_path, config.fetch_timeout⟩,
                        ⟨["checkout".data, b], repo_path, 30⟩],
                       ⟨["pull".data], repo_path, config.fetch_timeout⟩,
                       rfl, by simp [hp, GitResult.isOk]⟩
            | timedOut =>
              have hu : update_repository run config repo_path (some b) is_repo
                  = (false, [⟨["fetch".data, "--all".data], repo_path, config.fetch_timeout⟩,
                             ⟨["checkout".data, b], repo_path, 30⟩,
                             ⟨["pull".data], repo_path, config.fetch_timeout⟩]) := by
                simp only [update_repository, hrep]
                rw [if_neg hv]
                simp [hf, hb, hc, hp]
              rw [hu]
              refine ⟨?_, ?_, ?_⟩
              · intro call hcall
                simp only [List.mem_cons, List.not_mem_nil, or_false] at hcall
                rcases hcall with rfl | rfl | rfl
                · exact ⟨rfl, Or.inl ⟨rfl, rfl⟩⟩
                · exact ⟨rfl, Or.inr (Or.inl ⟨b, rfl, rfl, rfl⟩)⟩
                · exact ⟨rfl, Or.inr (Or.inr ⟨rfl, rfl⟩)⟩
              · intro h
                cases h
              · intro _
                right
                exact ⟨[⟨["fetch".data, "--all".data], repo_path, config.fetch_timeout⟩,
                        ⟨["checkout".data, b], repo_path, 30⟩],
                       ⟨["pull".data], repo_path, config.fetch_timeout⟩,
                       rfl, by simp [hp, GitResult.isOk]⟩
            | otherError =>
              have hu : update_repository run config repo_path (some b) is_repo
                  = (false, [⟨["fetch".data, "--all".data], repo_path, config.fetch_timeout⟩,
                             ⟨["checkout".data, b], repo_path, 30⟩,
                             ⟨["pull".data], repo_path, config.fetch_timeout⟩]) := by
                simp only [update_repository, hrep]
                rw [if_neg hv]
                simp [hf, hb, hc, hp]
              rw [hu]
              refine ⟨?_, ?_, ?_⟩
              · intro call hcall
                simp only [List.mem_cons, List.not_mem_nil, or_false] at hcall
                rcases hcall with rfl | rfl | rfl
                · exact ⟨rfl, Or.inl ⟨rfl, rfl⟩⟩
                · exact ⟨rfl, Or.inr (Or.inl ⟨b, rfl, rfl, rfl⟩)⟩
                · exact ⟨rfl, Or.inr (Or.inr ⟨rfl, rfl⟩)⟩
              · intro h
                cases h
              · intro _
                right
                exact ⟨[⟨["fetch".data, "--all".data], repo_path, config.fetch_timeout⟩,
                        ⟨["checkout".data, b], repo_path, 30⟩],
                       ⟨["pull".data], repo_path, config.fetch_timeout⟩,
                       rfl, by simp [hp, GitResult.isOk]⟩
          | cmdError e =>
            have hu : update_repository run config repo_path (some b) is_repo
                = (false, [⟨["fetch".data, "--all".data], repo_path, config.fetch_timeout⟩,
                           ⟨["checkout".data, b], repo_path, 30⟩]) := by
              simp only [update_repository, hrep]
              rw [if_neg hv]
              simp [hf, hb, hc]
            rw [hu]
            refine ⟨?_, ?_, ?_⟩
            · intro call hcall
              simp only [List.mem_cons, List.not_mem_nil, or_false] at hcall
              rcases hcall with rfl | rfl
              · exact ⟨rfl, Or.inl ⟨rfl, rfl⟩⟩
              · exact ⟨rfl, Or.inr (Or.inl ⟨b, rfl, rfl, rfl⟩)⟩
            · intro h
              cases h
            · intro _
              right
              exact ⟨[⟨["fetch".data, "--all".data], repo_path, config.fetch_timeout⟩],
                     ⟨["checkout".data, b], repo_path, 30⟩,
                     rfl, by simp [hc, GitResult.isOk]⟩
          | timedOut =>
            have hu : update_repository run config repo_path (some b) is_repo
                = (false, [⟨["fetch".data, "--all".data], repo_path, config.fetch_timeout⟩,
                           ⟨["checkout".data, b], repo_path, 30⟩]) := by
              simp only [update_repository, hrep]
              rw [if_neg hv]
              simp [hf, hb, hc]
            rw [hu]
            refine ⟨?_, ?_, ?_⟩
            · intro call hcall
              simp only [List.mem_cons, List.not_mem_nil, or_false] at hcall
              rcases hcall with rfl | rfl
              · exact ⟨rfl, Or.inl ⟨rfl, rfl⟩⟩
              · exact ⟨rfl, Or.inr (Or.inl ⟨b, rfl, rfl, rfl⟩)⟩
            · intro h
              cases h
            · intro _
              right
              exact ⟨[⟨["fetch".data, "--all".data], repo_path, config.fetch_timeout⟩],
                     ⟨["checkout".data, b], repo_path, 30⟩,
                     rfl, by simp [hc, GitResult.isOk]⟩
          | otherError =>
            have hu : update_repository run config repo_path (some b) is_repo
                = (false, [⟨["fetch".data, "--all".data], repo_path, config.fetch_timeout⟩,
                           ⟨["checkout".data, b], repo_path, 30⟩]) := by
              simp only [update_repository, hrep]
              rw [if_neg hv]
              simp [hf, hb, hc]
            rw [hu]
            refine ⟨?_, ?_, ?_⟩
            · intro call hcall
              simp only [List.mem_cons, List.not_mem_nil, or_false] at hcall
              rcases hcall with rfl | rfl
              · exact ⟨rfl, Or.inl ⟨rfl, rfl⟩⟩
              · exact ⟨rfl, Or.inr (Or.inl ⟨b, rfl, rfl, rfl⟩)⟩
            · intro h
              cases h
            · intro _
              right
              exact ⟨[⟨["fetch".data, "--all".data], repo_path, config.fetch_timeout⟩],
                     ⟨["checkout".data, b], repo_path, 30⟩,
                     rfl, by simp [hc, GitResult.isOk]⟩
        · cases hp : run ["pull".data] repo_path config.fetch_timeout with
          | ok out3 =>
            have hu : update_repository run config repo_path branch is_repo
                = (true, [⟨["fetch".data, "--all".data], repo_path, config.fetch_timeout⟩,
                          ⟨["pull".data], repo_path, config.fetch_timeout⟩]) := by
              simp only [update_repository, hrep]
              rw [if_neg hv]
              simp [hf, hb, hp]
            rw [hu]
            refine ⟨?_, ?_, ?_⟩
            · intro call hcall
              simp only [List.mem_cons, List.not_mem_nil, or_false] at hcall
              rcases hcall with rfl | rfl
              · exact ⟨rfl, Or.inl ⟨rfl, rfl⟩⟩
              · exact ⟨rfl, Or.inr (Or.inr ⟨rfl, rfl⟩)⟩
            · intro _ call hcall
              simp only [List.mem_cons, List.not_mem_nil, or_false] at hcall
              rcases hcall with rfl | rfl
              · simp [hf, GitResult.isOk]
              · simp [hp, GitResult.isOk]
            · intro h
              cases h
          | cmdError e =>
            have hu : update_repository run config repo_path branch is_repo
                = (false, [⟨["fetch".data, "--all".data], repo_path, config.fetch_timeout⟩,
                           ⟨["pull".data], repo_path, config.fetch_timeout⟩]) := by
              simp only [update_repository, hrep]
              rw [if_neg hv]
              simp [hf, hb, hp]
            rw [hu]
            refine ⟨?_, ?_, ?_⟩
            · intro call hcall
              simp only [List.mem_cons, List.not_mem_nil, or_false] at hcall
              rcases hcall with rfl | rfl
              · exact ⟨rfl, Or.inl ⟨rfl, rfl⟩⟩
              · exact ⟨rfl, Or.inr (Or.inr ⟨rfl, rfl⟩)⟩
            · intro h
              cases h
            · intro _
              right
              exact ⟨[⟨["fetch".data, "--all".data], repo_path, config.fetch_timeout⟩],
                     ⟨["pull".data], repo_path, config.fetch_timeout⟩,
                     rfl, by simp [hp, GitResult.isOk]⟩
          | timedOut =>
            have hu : update_repository run config repo_path branch is_repo
                = (false, [⟨["fetch".data, "--all".data], repo_path, config.fetch_timeout⟩,
                           ⟨["pull".data], repo_path, config.fetch_timeout⟩]) := by
              simp only [update_repository, hrep]
              rw [if_neg hv]
              simp [hf, hb, hp]
            rw [hu]
            refine ⟨?_, ?_, ?_⟩
            · intro call hcall
              simp only [List.mem_cons, List.not_mem_nil, or_false] at hcall
              rcases hcall with rfl | rfl
              · exact ⟨rfl, Or.inl ⟨rfl, rfl⟩⟩
              · exact ⟨rfl, Or.inr (Or.inr ⟨rfl, rfl⟩)⟩
            · intro h
              cases h
            · intro _
              right
              exact ⟨[⟨["fetch".data, "--all".data], repo_path, config.fetch_timeout⟩],
                     ⟨["pull".data], repo_path, config.fetch_timeout⟩,
                     rfl, by simp [hp, GitResult.isOk]⟩
          | otherError =>
            have hu : update_repository run config repo_path branch is_repo
                = (false, [⟨["fetch".data, "--all".data], repo_path, config.fetch_timeout⟩,
                           ⟨["pull".data], repo_path, config.fetch_timeout⟩]) := by
              simp only [update_repository, hrep]
              rw [if_neg hv]
              simp [hf, hb, hp]
            rw [hu]
            refine ⟨?_, ?_, ?_⟩
            · intro call hcall
              simp only [List.mem_cons, List.not_mem_nil, or_false] at hcall
              rcases hcall with rfl | rfl
              · exact ⟨rfl, Or.inl ⟨rfl, rfl⟩⟩
              · exact ⟨rfl, Or.inr (Or.inr ⟨rfl, rfl⟩)⟩
            · intro h
              cases h
            · intro _
              right
              exact ⟨[⟨["fetch".data, "--all".data], repo_path, config.fetch_timeout⟩],
                     ⟨["pull".data], repo_path, config.fetch_timeout⟩,
                     rfl, by simp [hp, GitResult.isOk]⟩
      | cmdError e =>
        have hu : update_repository run config repo_path branch is_repo
            = (false, [⟨["fetch".data, "--all".data], repo_path, config.fetch_timeout⟩]) := by
          simp only [update_repository, hrep]
          rw [if_neg hv]
          simp [hf]
        rw [hu]
        refine ⟨?_, ?_, ?_⟩
        · intro call hcall
          simp only [List.mem_cons, List.not_mem_nil, or_false] at hcall
          rcases hcall with rfl
          · exact ⟨rfl, Or.inl ⟨rfl, rfl⟩⟩
        · intro h
          cases h
        · intro _
          right
          exact ⟨[], ⟨["fetch".data, "--all".data], repo_path, config.fetch_timeout⟩,
                 rfl, by simp [hf, GitResult.isOk]⟩
      | timedOut =>
        have hu : update_repository run config repo_path branch is_repo
            = (false, [⟨["fetch".data, "--all".data], repo_path, config.fetch_timeout⟩]) := by
          simp only [update_repository, hrep]
          rw [if_neg hv]
          simp [hf]
        rw [hu]
        refine ⟨?_, ?_, ?_⟩
        · intro call hcall
          simp only [List.mem_cons, List.not_mem_nil, or_false] at hcall
          rcases hcall with rfl
          · exact ⟨rfl, Or.inl ⟨rfl, rfl⟩⟩
        · intro h
          cases h
        · intro _
          right
          exact ⟨[], ⟨["fetch".data, "--all".data], repo_path, config.fetch_timeout⟩,
                 rfl, by simp [hf, GitResult.isOk]⟩
      | otherError =>
        have hu : update_repository run config repo_path branch is_repo
            = (false, [⟨["fetch".data, "--all".data], repo_path, config.fetch_timeout⟩]) := by
          simp only [update_repository, hrep]
          rw [if_neg hv]
          simp [hf]
        rw [hu]
        refine ⟨?_, ?_, ?_⟩
        · intro call hcall
          simp only [List.mem_cons, List.not_mem_nil, or_false] at hcall
          rcases hcall with rfl
          · exact ⟨rfl, Or.inl ⟨rfl, rfl⟩⟩
        · intro h
          cases h
        · intro _
          right
          exact ⟨[], ⟨["fetch".data, "--all".data], repo_path, config.fetch_timeout⟩,
                 rfl, by simp [hf, GitResult.isOk]⟩
    · have hrep' : is_repo = false := by
        cases is_repo
        · rfl
        · exact absurd rfl hrep
      have hu : update_repository run config repo_path branch is_repo = (false, []) := by
        simp only [update_repository, hrep']
        rw [if_neg hv]
        simp
      rw [hu]
      refine ⟨?_, ?_, ?_⟩ <;> simp

/-- C8 amended witness. -/
theorem c8_amended_update_steps_witness :
    ((update_repository allOkRunner ⟨false, 60, 300⟩ ("/r".data)
        (some ("develop".data)) true).1 = true)
      ∧ (∀ call ∈ (update_repository allOkRunner ⟨false, 60, 300⟩ ("/r".data)
            (some ("develop".data)) true).2,
          (allOkRunner call.args call.cwd call.timeout).isOk = true) :=
  ⟨by decide,
   (c8_amended_update_steps allOkRunner ⟨false, 60, 300⟩ ("/r".data)
      (some ("develop".data)) true).2.1 (by decide)⟩

/-! ### Diff parsing (`tools/code_analysis.parse_git_diff`) -/

/-- One per-file record of the parsed diff. -/
structure DiffRecord where
  status : PyStr
  content : PyStr
  original_content : PyStr
  header : PyStr
  raw_diff : PyStr
  deriving DecidableEq

/-- The result dictionary, in insertion order. -/
abbrev DiffDict := List (PyStr × DiffRecord)

/-- `result[k] = v` with Python-dict semantics: overwrite in place, append
when absent. -/
def dictSet : DiffDict → PyStr → DiffRecord → DiffDict
  | [], k, v => [(k, v)]
  | (k', v') :: rest, k, v =>
    if k' = k then (k, v) :: rest else (k', v') :: dictSet rest k v

/-- In-place update of the entry for key `k` (the parser only modifies keys
it has inserted). -/
def dictModify : DiffDict → PyStr → (DiffRecord → DiffRecord) → DiffDict
  | [], _, _ => []
  | (k', v') :: rest, k, f =>
    if k' = k then (k', f v') :: rest else (k', v') :: dictModify rest k f

/-- The parser's loop state: the dictionary built so far, the current file,
the `current_content` / `current_header` accumulators, and `in_meta`, which
encodes being inside the index-based inner loop of lines 198-210 (skipping
the metadata lines that follow a `diff --git ` header until the next `@@`
hunk marker). -/
structure ParseState where
  result : DiffDict
  current_file : Option PyStr
  current_content : List PyStr
  current_header : List PyStr
  in_meta : Bool
  deriving DecidableEq

/-- Lines 176-180 of `code_analysis.py`: before starting a new record, the
previous file's accumulated content and header are written (unconditionally)
and the accumulators reset. -/
def flushCurrent (st : ParseState) : ParseState :=
  match st.current_file with
  | some f =>
    { st with
      result := dictModify st.result f fun r =>
        { r with content := pyJoin '\n' st.current_content,
                 header := pyJoin '\n' st.current_header },
      current_content := [], current_header := [] }
  | none => st

/-- The fresh record created for a `diff --git ` header line. -/
def initRecord (line : PyStr) : DiffRecord :=
  ⟨"modified".data, [], [], line, line ++ "\n".data⟩

/-- Lines 182-195: extract the `b/` filename from the fourth token and
insert the fresh record (no-op when the header has fewer than 4 tokens). -/
def startRecord (line : PyStr) (st : ParseState) : ParseState :=
  let parts := pySplit ' ' line
  if 4 ≤ parts.length then
    let file_path := (parts.getD 3 []).drop 2
    { st with
        current_file := some file_path,
        result := dictSet st.result file_path (initRecord line),
        current_header := st.current_header ++ [line] }
  else st

/-- Lines 197-210: one metadata line following a header — appended to the
header accumulator and the raw diff, possibly updating the status. -/
def metaApply (st : ParseState) (l : PyStr) : ParseState :=
  match st.current_file with
  | none => st
  | some f =>
    { st with
      current_header := st.current_header ++ [l],
      result := dictModify st.result f fun r =>
        { r with
          raw_diff := r.raw_diff ++ l ++ "\n".data,
          status :=
            if pyStartsWith ("new file".data) l then "added".data
            else if pyStartsWith ("deleted file".data) l then "deleted".data
            else if pyStartsWith ("rename from".data) l then "renamed".data
            else r.status } }

/-- One iteration of the `parse_git_diff` loop (lines 170-222), as a
per-line state machine.  While `in_meta` (inside the inner loop of lines
198-210) every line up to the next `@@` marker — including a further
`diff --git ` line — is consumed as metadata.  Otherwise a `diff --git `
line flushes the prior record and starts the new one (entering metadata
mode); `@@` lines go to the header accumulator; `+`/`-`/space lines go to
the content accumulator; anything else is ignored. -/
def parseLine (st : ParseState) (line : PyStr) : ParseState :=
  if st.in_meta && !pyStartsWith ("@@".data) line then metaApply st line
  else
    let st := { st with in_meta := false }
    if pyStartsWith ("diff --git ".data) line then
      { startRecord line (flushCurrent st) with in_meta := true }
    else
      match st.current_file with
      | some f =>
        if pyStartsWith ("@@".data) line then
          { st with
              current_header := st.current_header ++ [line],
              result := dictModify st.result f fun r =>
                { r with raw_diff := r.raw_diff ++ line ++ "\n".data } }
        else if pyStartsWith ("+".data) line || pyStartsWith ("-".data) line
            || pyStartsWith (" ".data) line then
          { st with
              current_content := st.current_content ++ [line],
              result := dictModify st.result f fun r =>
                { r with raw_diff := r.raw_diff ++ line ++ "\n".data } }
        else st
      | none => st

/-- The full loop over the split lines. -/
def parseLoop (lines : List PyStr) (st : ParseState) : ParseState :=
  lines.foldl parseLine st

/-- Lines 224-227: the end-of-input save, which runs only when the current
file exists AND the accumulated content is non-empty. -/
def finalFlushResult (st : ParseState) : DiffDict :=
  match st.current_file with
  | some f =>
    if st.current_content.isEmpty then st.result
    else
      dictModify st.result f fun r =>
        { r with content := pyJoin '\n' st.current_content,
                 header := pyJoin '\n' st.current_header }
  | none => st.result

/-- `tools/code_analysis.parse_git_diff`. -/
def parse_git_diff (diff_content : PyStr) : DiffDict :=
  finalFlushResult (parseLoop (pySplit '\n' diff_content) ⟨[], none, [], [], false⟩)

theorem parse_git_diff_single_file_eval :
    parse_git_diff ("diff --git a/f b/f\n@@ -1 +1 @@\n-x\n+y".data)
      = [(("f".data),
          ⟨"modified".data, "-x\n+y".data, [],
           "diff --git a/f b/f\n@@ -1 +1 @@".data,
           "diff --git a/f b/f\n@@ -1 +1 @@\n-x\n+y\n".data⟩)] := by decide

theorem parse_git_diff_two_files_eval :
    parse_git_diff
        ("diff --git a/f b/f\n@@ -1 +1 @@\n-x\ndiff --git a/g b/g\nnew file mode 100644\n@@ -0,0 +1 @@\n+z".data)
      = [(("f".data),
          ⟨"modified".data, "-x".data, [],
           "diff --git a/f b/f\n@@ -1 +1 @@".data,
           "diff --git a/f b/f\n@@ -1 +1 @@\n-x\n".data⟩),
         (("g".data),
          ⟨"added".data, "+z".data, [],
           "diff --git a/g b/g\nnew file mode 100644\n@@ -0,0 +1 @@".data,
           "diff --git a/g b/g\nnew file mode 100644\n@@ -0,0 +1 @@\n+z\n".data⟩)] := by
  decide

/-- C9 counterexample — at end of input a final record whose accumulated
content is empty is NOT finalized: parsing a diff consisting of a header,
one metadata line and a hunk header (no content lines) leaves the record's
`header` field at the initial `diff --git` line alone, not the full
accumulated header (`diff --git` line + metadata line + `@@` line) the claim
requires. -/
theorem c9_eof_empty_content_not_finalized :
    parse_git_diff ("diff --git a/f b/f\nindex 1\n@@ -1 +1 @@".data)
      = [(("f".data),
          ⟨"modified".data, [], [],
           "diff --git a/f b/f".data,
           "diff --git a/f b/f\nindex 1\n@@ -1 +1 @@\n".data⟩)]
      ∧ ("diff --git a/f b/f".data : PyStr)
          ≠ "diff --git a/f b/f\nindex 1\n@@ -1 +1 @@".data := by
  refine ⟨by decide, by decide⟩

/-- C9 amended — on encountering the next `diff --git ` header the prior
record is finalized unconditionally (full accumulated header and content
written, accumulators reset); at end of input, however, the final record is
finalized only when its accumulated content is non-empty — a final record
with empty content keeps its initial header (the `diff --git` line alone)
and empty content. -/
theorem c9_amended_finalization :
    (∀ st f, st.current_file = some f →
        flushCurrent st
          = { st with
                result := dictModify st.result f fun r =>
                  { r with content := pyJoin '\n' st.current_content,
                           header := pyJoin '\n' st.current_header },
                current_content := [], current_header := [] })
      ∧ (∀ st line, st.in_meta = false →
          pyStartsWith ("diff --git ".data) line = true →
            parseLine st line
              = { startRecord line (flushCurrent st) with in_meta := true })
      ∧ (∀ st f, st.current_file = some f → st.current_content = [] →
          finalFlushResult st = st.result)
      ∧ (∀ st f, st.current_file = some f → st.current_content ≠ [] →
          finalFlushResult st
            = dictModify st.result f fun r =>
                { r with content := pyJoin '\n' st.current_content,
                         header := pyJoin '\n' st.current_header })
      ∧ (∀ text, parse_git_diff text
          = finalFlushResult (parseLoop (pySplit '\n' text) ⟨[], none, [], [], false⟩)) := by
  refine ⟨?_, ?_, ?_, ?_, fun text => rfl⟩
  · intro st f h
    simp [flushCurrent, h]
  · intro st line hm hl
    have hst : { st with in_meta := false } = st := by
      cases st
      simp_all
    simp [parseLine, hm, hl, hst]
  · intro st f h hc
    simp [finalFlushResult, h, hc]
  · intro st f h hc
    simp [finalFlushResult, h, hc]

/-- C9 amended witness. -/
theorem c9_amended_finalization_witness :
    finalFlushResult ⟨[(("f".data), initRecord ("diff --git a/f b/f".data))],
                       some ("f".data), [], ["x".data], false⟩
      = [(("f".data), initRecord ("diff --git a/f b/f".data))] :=
  c9_amended_finalization.2.2.1 _ ("f".data) rfl rfl
